import Mathlib

/- Verification of the chunking and retrieval core of a RAG document pipeline.

The development shallowly embeds the Python source:
- `document_processor.py`: text preprocessing, sentence split, token-bounded
  chunking with overlap, and the document processing run,
- `embedding_service.py`: cosine / L2-derived similarity, per-document and
  multi-document retrieval,
- `rag_service.py`: the retrieval entry point filtering processed documents.

Texts are embedded as `List Char`.  The tiktoken `cl100k_base` tokenizer is an
external binary table; it is embedded as an explicit `Encoding` parameter (an
encode / decode pair), and claims about concrete runs instantiate it with the
character-level encoding `charEnc` (each character is one token), which
satisfies the tokenizer-adapter contract the chunker relies on.  Floating
point vectors are modelled over the reals. -/

/-- Python `\s` on the ASCII range: the whitespace characters recognised by
`re.sub` patterns and `str.strip()` in the source. -/
def pyIsSpace (c : Char) : Bool :=
  c = ' ' || c = '\t' || c = '\n' || c = '\r' || c = '\x0b' || c = '\x0c'

/-- Python `\w` as it occurs in the allow-list `[^\w\s가-힣.,!?;:()\-]` of
`preprocess_text`: ASCII letters, digits and underscore.  (The Hangul block
`가-힣` of the allow-list is kept separately in `allowedChar`; other
non-ASCII word characters do not occur in the analysed inputs.) -/
def pyIsWord (c : Char) : Bool :=
  c.isAlpha || c.isDigit || c = '_'

/-- Membership in the character allow-list of `preprocess_text`:
`re.sub(r'[^\w\s가-힣.,!?;:()\-]', '', text)` keeps word characters,
whitespace, Hangul syllables and the listed punctuation and drops
everything else. -/
def allowedChar (c : Char) : Bool :=
  pyIsWord c || pyIsSpace c || ('가' ≤ c && c ≤ '힣') ||
    c = '.' || c = ',' || c = '!' || c = '?' || c = ';' || c = ':' ||
    c = '(' || c = ')' || c = '-'

/-- Worker for `collapseWs`; the flag records whether the previous character
belonged to a whitespace run (so only the first character of each run emits
the single replacement space). -/
def collapseWsGo : Bool → List Char → List Char
  | _, [] => []
  | prevWs, c :: rest =>
    if pyIsSpace c then
      if prevWs then collapseWsGo true rest
      else ' ' :: collapseWsGo true rest
    else c :: collapseWsGo false rest

/-- Model of `re.sub(r'\s+', ' ', text)`: every maximal whitespace run is
replaced by a single space. -/
def collapseWs (l : List Char) : List Char :=
  collapseWsGo false l

/-- Index of the last newline in a character list, if any (used to model the
greedy, backtracking match of `\n\s*\n`). -/
def lastNlIdx : List Char → Option Nat
  | [] => none
  | c :: rest =>
    match lastNlIdx rest with
    | some p => some (p + 1)
    | none => if c = '\n' then some 0 else none

/-- Finish of a pending `\n\s*\n` match attempt: `run` is the whitespace run
that followed a newline.  The greedy `\s*` backtracks to the last newline of
the run; on success the matched span collapses to a single newline and the
trailing whitespace after that last newline is emitted unchanged (it contains
no newline, so no further match can start inside it); on failure the original
newline and the run are emitted unchanged. -/
def sblFlush (run : List Char) : List Char :=
  match lastNlIdx run with
  | some p => '\n' :: run.drop (p + 1)
  | none => '\n' :: run

/-- Worker for `subBlankLines`.  `none` is the normal scanning mode; `some
buf` means a newline has been read and `buf` (reversed) is the whitespace
read since, pending the decision of `sblFlush`. -/
def sblGo : Option (List Char) → List Char → List Char
  | none, [] => []
  | none, c :: rest =>
    if c = '\n' then sblGo (some []) rest else c :: sblGo none rest
  | some buf, [] => sblFlush buf.reverse
  | some buf, c :: rest =>
    if pyIsSpace c then sblGo (some (c :: buf)) rest
    else sblFlush buf.reverse ++ c :: sblGo none rest

/-- Model of `re.sub(r'\n\s*\n', '\n', text)` (blank-line collapsing, with
re.sub's leftmost, greedy, continue-after-replacement semantics). -/
def subBlankLines (l : List Char) : List Char :=
  sblGo none l

/-- Model of Python `str.strip()`: remove leading and trailing whitespace. -/
def pyStrip (l : List Char) : List Char :=
  ((l.dropWhile pyIsSpace).reverse.dropWhile pyIsSpace).reverse

/-- Model of `DocumentProcessor.preprocess_text`: collapse whitespace runs,
drop characters outside the allow-list, collapse blank lines, strip. -/
def preprocess_text (text : List Char) : List Char :=
  pyStrip (subBlankLines ((collapseWs text).filter allowedChar))

/-- The sentence-final punctuation class `[.!?]` of the sentence splitter. -/
def isSentPunct (c : Char) : Bool :=
  c = '.' || c = '!' || c = '?'

/-- Whether a character list starts with a whitespace character. -/
def headIsSpace : List Char → Bool
  | [] => false
  | c :: _ => pyIsSpace c

/-- Worker for `splitSents`, accumulating the current fragment in reverse.
At `[.!?]` followed by whitespace the delimiter (punctuation plus the whole
greedy whitespace run) is consumed and the fragment closed, mirroring
`re.split(r'[.!?]\s+', processed_text)`.  The `skipWs` flag set after a
delimiter consumes the remainder of its greedy whitespace run. -/
def splitSentsGo : Bool → List Char → List Char → List (List Char)
  | _, [], acc => [acc.reverse]
  | skipWs, c :: rest, acc =>
    if skipWs && pyIsSpace c then splitSentsGo true rest acc
    else if isSentPunct c && headIsSpace rest then
      acc.reverse :: splitSentsGo true rest []
    else splitSentsGo false rest (c :: acc)

/-- Model of `re.split(r'[.!?]\s+', processed_text)` (empty fragments
included, as in Python). -/
def splitSents (l : List Char) : List (List Char) :=
  splitSentsGo false l []

/-- The tokenizer adapter: an encode / decode pair over an abstract token
type, standing for the external tiktoken `cl100k_base` encoding. -/
structure Encoding (τ : Type) where
  encode : List Char → List τ
  decode : List τ → List Char

/-- Character-level instantiation of the tokenizer adapter: each character is
one token.  It stands in for `cl100k_base`, whose BPE table is external
data, and satisfies the adapter laws (decode inverts encode, token counts
are additive). -/
def charEnc : Encoding Char :=
  ⟨id, id⟩

/-- One emitted chunk: `content`, `chunk_index` and the recorded
`metadata['tokens']` count.  The `document_id` and `file_name` metadata
entries are constants of a processing run and are omitted. -/
structure Chunk where
  content : List Char
  chunk_index : Nat
  tokens : Nat
deriving DecidableEq, Repr

/-- Model of `DocumentProcessor._get_overlap_text`: if the text has at most
`overlap_tokens` tokens return it whole, else decode the trailing
`overlap_tokens` tokens (`tokens[-overlap_tokens:]` is
`drop (tokens.length - overlap_tokens)`; the source only calls this under
`chunk_overlap > 0`). -/
def get_overlap_text (enc : Encoding τ) (text : List Char) (overlap_tokens : Nat) : List Char :=
  let tokens := enc.encode text
  if tokens.length ≤ overlap_tokens then text
  else enc.decode (tokens.drop (tokens.length - overlap_tokens))

/-- Loop state of `DocumentProcessor.create_chunks`: emitted chunks, the
accumulating chunk buffer, its running token count and the next index. -/
structure ChunkState where
  chunks : List Chunk
  current_chunk : List Char
  current_tokens : Nat
  chunk_index : Nat
deriving DecidableEq, Repr

/-- One iteration of the sentence loop of `DocumentProcessor.create_chunks`:
strip the sentence and skip it when empty; close the buffer when adding the
sentence would exceed `chunk_size` (seeding the next buffer with the overlap
tail when `chunk_overlap > 0`); otherwise append the sentence to the buffer
(joined with a period and space when the buffer is non-empty). -/
def create_chunks_step (enc : Encoding τ) (chunk_size chunk_overlap : Nat)
    (st : ChunkState) (rawSentence : List Char) : ChunkState :=
  let sentence := pyStrip rawSentence
  if sentence = [] then st
  else
    let sentence_tokens := (enc.encode sentence).length
    if chunk_size < st.current_tokens + sentence_tokens ∧ st.current_chunk ≠ [] then
      let closed : Chunk := ⟨pyStrip st.current_chunk, st.chunk_index, st.current_tokens⟩
      if 0 < chunk_overlap then
        let overlap_text := get_overlap_text enc st.current_chunk chunk_overlap
        let new_chunk := overlap_text ++ ' ' :: sentence
        ⟨st.chunks ++ [closed], new_chunk, (enc.encode new_chunk).length, st.chunk_index + 1⟩
      else
        ⟨st.chunks ++ [closed], sentence, sentence_tokens, st.chunk_index + 1⟩
    else
      if st.current_chunk ≠ [] then
        ⟨st.chunks, st.current_chunk ++ '.' :: ' ' :: sentence,
          st.current_tokens + sentence_tokens, st.chunk_index⟩
      else
        ⟨st.chunks, sentence, st.current_tokens + sentence_tokens, st.chunk_index⟩

/-- Model of `DocumentProcessor.create_chunks`: preprocess, split into
sentences, run the greedy packing loop, and emit the final buffer when its
stripped form is non-empty. -/
def create_chunks (enc : Encoding τ) (chunk_size chunk_overlap : Nat)
    (text : List Char) : List Chunk :=
  let processed_text := preprocess_text text
  let sentences := splitSents processed_text
  let st := sentences.foldl (create_chunks_step enc chunk_size chunk_overlap) ⟨[], [], 0, 0⟩
  if pyStrip st.current_chunk = [] then st.chunks
  else st.chunks ++ [⟨pyStrip st.current_chunk, st.chunk_index, st.current_tokens⟩]

/-- Persisted document state touched by `DocumentProcessor.process_document`:
the `is_processed` flag, `processing_status`, `total_chunks` and the
document's stored `DocumentChunk` rows. -/
structure DocState where
  is_processed : Bool
  processing_status : String
  total_chunks : Nat
  stored_chunks : List Chunk
deriving DecidableEq, Repr

/-- Outcome dictionary of `process_document`: the `success` flag, with the
`total_chunks` payload present on success. -/
structure ProcResult where
  success : Bool
  total_chunks : Option Nat
deriving DecidableEq, Repr

/-- Model of `DocumentProcessor.process_document`.  `extracted` is the
outcome of the external `extract_text` call; `insert_fault` injects a
database exception at the i-th `DocumentChunk.objects.create` of the save
loop (the delete and the individual inserts are separate autocommit
statements in the source; no transaction surrounds them).  The `except`
branch of the source sets only `processing_status` to `'failed'`. -/
def process_document (enc : Encoding τ) (chunk_size chunk_overlap : Nat)
    (extracted : Except String (List Char)) (insert_fault : Option Nat)
    (doc : DocState) : DocState × ProcResult :=
  let doc1 : DocState := { doc with processing_status := "processing" }
  match extracted with
  | .error _ => ({ doc1 with processing_status := "failed" }, ⟨false, none⟩)
  | .ok text =>
    if pyStrip text = [] then
      ({ doc1 with processing_status := "failed" }, ⟨false, none⟩)
    else
      let chunks := create_chunks enc chunk_size chunk_overlap text
      let doc2 : DocState := { doc1 with stored_chunks := [] }
      match insert_fault with
      | some i =>
        if i < chunks.length then
          ({ doc2 with
              stored_chunks := chunks.take i
              processing_status := "failed" },
            ⟨false, none⟩)
        else
          ({ doc2 with
              stored_chunks := chunks
              is_processed := true
              processing_status := "completed"
              total_chunks := chunks.length },
            ⟨true, some chunks.length⟩)
      | none =>
        ({ doc2 with
            stored_chunks := chunks
            is_processed := true
            processing_status := "completed"
            total_chunks := chunks.length },
          ⟨true, some chunks.length⟩)

/-- Model of `np.dot` on (equal-length) vectors, floats modelled as reals. -/
noncomputable def np_dot (vec1 vec2 : List ℝ) : ℝ :=
  (List.zipWith (fun x y => x * y) vec1 vec2).sum

/-- Model of `np.linalg.norm`: the Euclidean norm. -/
noncomputable def np_norm (v : List ℝ) : ℝ :=
  Real.sqrt ((v.map (fun x => x * x)).sum)

/-- Model of `EmbeddingService.calculate_cosine_similarity`: guard against a
zero norm, else `dot / (norm1 * norm2)`. -/
noncomputable def calculate_cosine_similarity (vec1 vec2 : List ℝ) : ℝ :=
  let dot_product := np_dot vec1 vec2
  let norm1 := np_norm vec1
  let norm2 := np_norm vec2
  if norm1 = 0 ∨ norm2 = 0 then 0
  else dot_product / (norm1 * norm2)

/-- The Euclidean distance `np.linalg.norm(vec1 - vec2)` used by
`calculate_l2_similarity` (componentwise difference of equal-length
vectors). -/
noncomputable def l2_distance (vec1 vec2 : List ℝ) : ℝ :=
  np_norm (List.zipWith (fun x y => x - y) vec1 vec2)

/-- Model of `EmbeddingService.calculate_l2_similarity`:
`1 / (1 + euclidean_distance)`. -/
noncomputable def calculate_l2_similarity (vec1 vec2 : List ℝ) : ℝ :=
  1 / (1 + l2_distance vec1 vec2)

/-- A stored `DocumentChunk` row as retrieval sees it: primary key, content
and the optional persisted embedding (`None`/empty is modelled as `none`).
Embedding vectors are abstracted to the type parameter `Emb`. -/
structure ChunkRow (Emb : Type) where
  id : Nat
  content : List Char
  embedding : Option Emb
deriving DecidableEq, Repr

/-- A scored chunk as produced by `search_similar_chunks` (the dict with
`chunk`, `similarity`, `content`, `metadata`; similarity scores are
modelled as rationals). -/
structure ScoredChunk where
  chunk_id : Nat
  similarity : ℚ
  content : List Char
deriving DecidableEq, Repr

/-- A result of `search_multiple_documents`: a scored chunk with the
`document_id` tag added by the multi-document loop. -/
structure RetrievalResult where
  chunk_id : Nat
  similarity : ℚ
  content : List Char
  document_id : Nat
deriving DecidableEq, Repr

/-- Model of `EmbeddingService.generate_chunk_embeddings`: reuse a stored
embedding when present, otherwise call the embedding backend and skip the
chunk when that call fails (partial success tolerated, failures only
logged). -/
def generate_chunk_embeddings (getEmb : List Char → Except String Emb)
    (document_chunks : List (ChunkRow Emb)) : List (Nat × Emb) :=
  document_chunks.foldl (fun embeddings chunk =>
    match chunk.embedding with
    | some e => embeddings ++ [(chunk.id, e)]
    | none =>
      match getEmb chunk.content with
      | .ok e => embeddings ++ [(chunk.id, e)]
      | .error _ => embeddings) []

/-- Lookup in the embeddings dictionary (chunk ids are primary keys, hence
distinct, so first-match lookup models the Python dict). -/
def lookupEmb (embeddings : List (Nat × Emb)) (i : Nat) : Option Emb :=
  match embeddings.find? (fun p => p.1 = i) with
  | some p => some p.2
  | none => none

/-- Model of `EmbeddingService.search_similar_chunks`: embed the query (a
failure is re-raised wrapped, hence `Except.error` here), ensure chunk
embeddings, score every embedded chunk, sort descending by similarity and
keep the top `top_k`.  The cosine/l2 method dispatch of the source is
abstracted into the `sim` parameter (both methods are modelled over the
reals separately). -/
def search_similar_chunks (getEmb : List Char → Except String Emb)
    (sim : Emb → Emb → ℚ) (query : List Char)
    (document_chunks : List (ChunkRow Emb)) (top_k : Nat) :
    Except String (List ScoredChunk) :=
  match getEmb query with
  | .error e => .error ("search failed: " ++ e)
  | .ok query_embedding =>
    let chunk_embeddings := generate_chunk_embeddings getEmb document_chunks
    let similarities := document_chunks.foldl (fun acc chunk =>
      match lookupEmb chunk_embeddings chunk.id with
      | some e => acc ++ [⟨chunk.id, sim query_embedding e, chunk.content⟩]
      | none => acc) []
    .ok ((similarities.mergeSort (fun a b => decide (b.similarity ≤ a.similarity))).take top_k)

/-- A `Document` row as retrieval sees it: primary key, the two lifecycle
fields and the document's chunk rows. -/
structure DocumentR (Emb : Type) where
  id : Nat
  is_processed : Bool
  processing_status : String
  chunks : List (ChunkRow Emb)
deriving DecidableEq, Repr

/-- Per-document contribution of the loop in
`EmbeddingService.search_multiple_documents`: documents without chunks are
skipped; a per-document search failure (including a query-embedding failure)
is caught, printed and skipped; each surviving result is tagged with the
owning document's id. -/
def document_results (getEmb : List Char → Except String Emb)
    (sim : Emb → Emb → ℚ) (query : List Char) (top_k_per_doc : Nat)
    (document : DocumentR Emb) : List RetrievalResult :=
  if document.chunks.isEmpty then []
  else
    match search_similar_chunks getEmb sim query document.chunks top_k_per_doc with
    | .ok doc_results =>
      doc_results.map (fun r => ⟨r.chunk_id, r.similarity, r.content, document.id⟩)
    | .error _ => []

/-- Model of `EmbeddingService.search_multiple_documents`: concatenate the
per-document top-k lists, sort the union descending by similarity, truncate
to `total_top_k`.  Every per-document exception is caught inside the loop,
so the function itself never raises. -/
def search_multiple_documents (getEmb : List Char → Except String Emb)
    (sim : Emb → Emb → ℚ) (query : List Char) (documents : List (DocumentR Emb))
    (top_k_per_doc total_top_k : Nat) : List RetrievalResult :=
  let all_results := documents.foldl
    (fun acc document => acc ++ document_results getEmb sim query top_k_per_doc document) []
  (all_results.mergeSort (fun a b => decide (b.similarity ≤ a.similarity))).take total_top_k

/-- The eligibility filter of `RAGService.search_relevant_chunks`:
`Document.objects.filter(..., is_processed=True)` selects on the
`is_processed` flag, not on `processing_status`. -/
def retrieval_filter (document : DocumentR Emb) : Bool :=
  document.is_processed

/-- Model of `RAGService.search_relevant_chunks`: keep the processed
documents among the selected ones, return `[]` when none remain, otherwise
delegate to `search_multiple_documents` with the default
`top_k_per_doc = 3`.  Its own `except` branch returns `[]` on any
exception; nothing below it raises in the model. -/
def search_relevant_chunks (getEmb : List Char → Except String Emb)
    (sim : Emb → Emb → ℚ) (query : List Char)
    (selected_documents : List (DocumentR Emb)) (top_k : Nat) :
    List RetrievalResult :=
  let documents := selected_documents.filter retrieval_filter
  if documents.isEmpty then []
  else search_multiple_documents getEmb sim query documents 3 top_k

theorem zipWith_mul_self_eq (v : List ℝ) :
    List.zipWith (fun x y => x * y) v v = v.map (fun x => x * x) := by
  induction v with
  | nil => rfl
  | cons a t ih => simp [List.zipWith, ih]

theorem sum_map_sq_nonneg (v : List ℝ) : 0 ≤ (v.map (fun x => x * x)).sum := by
  induction v with
  | nil => simp
  | cons a t ih =>
    simp only [List.map_cons, List.sum_cons]
    exact add_nonneg (mul_self_nonneg a) ih

theorem sum_map_sq_pos (v : List ℝ) (h : ∃ x ∈ v, x ≠ 0) :
    0 < (v.map (fun x => x * x)).sum := by
  induction v with
  | nil => simp at h
  | cons a t ih =>
    simp only [List.map_cons, List.sum_cons]
    rcases h with ⟨x, hx, hne⟩
    rcases List.mem_cons.mp hx with rfl | hxt
    · exact add_pos_of_pos_of_nonneg (mul_self_pos.mpr hne) (sum_map_sq_nonneg t)
    · exact add_pos_of_nonneg_of_pos (mul_self_nonneg a) (ih ⟨x, hxt, hne⟩)

theorem np_norm_nonneg (v : List ℝ) : 0 ≤ np_norm v :=
  Real.sqrt_nonneg _

theorem np_norm_pos (v : List ℝ) (h : ∃ x ∈ v, x ≠ 0) : 0 < np_norm v :=
  Real.sqrt_pos.mpr (sum_map_sq_pos v h)

theorem l2_distance_self (v : List ℝ) : l2_distance v v = 0 := by
  have hz : List.zipWith (fun x y => x - y) v v = v.map (fun _ => (0 : ℝ)) := by
    induction v with
    | nil => rfl
    | cons a t ih => simp [List.zipWith, ih]
  have hsum : ((List.zipWith (fun x y => x - y) v v).map (fun x => x * x)).sum = 0 := by
    rw [hz]
    induction v with
    | nil => simp
    | cons a t ih => simpa using ih
  simp [l2_distance, np_norm, hsum]

/-- C6: `calculate_cosine_similarity` computes `dot / (norm1 * norm2)` for
equal-length vectors, returns exactly 0 when either vector has zero norm,
and equals 1 on any nonzero vector paired with itself (floats modelled as
reals, so "within floating tolerance" is exact equality). -/
theorem C6_cosine_similarity (a b v : List ℝ) (hlen : a.length = b.length)
    (hv : ∃ x ∈ v, x ≠ 0) :
    (np_norm a = 0 ∨ np_norm b = 0 → calculate_cosine_similarity a b = 0) ∧
    (np_norm a ≠ 0 → np_norm b ≠ 0 →
      calculate_cosine_similarity a b = np_dot a b / (np_norm a * np_norm b)) ∧
    calculate_cosine_similarity v v = 1 := by
  refine ⟨fun h => ?_, fun h1 h2 => ?_, ?_⟩
  · simp only [calculate_cosine_similarity]
    rw [if_pos h]
  · simp only [calculate_cosine_similarity]
    rw [if_neg (by tauto)]
  · have hpos : 0 < (v.map (fun x => x * x)).sum := sum_map_sq_pos v hv
    have hnorm : np_norm v ≠ 0 := ne_of_gt (np_norm_pos v hv)
    simp only [calculate_cosine_similarity]
    rw [if_neg (by tauto)]
    have hdot : np_dot v v = (v.map (fun x => x * x)).sum := by
      simp [np_dot, zipWith_mul_self_eq]
    rw [hdot]
    simp only [np_norm]
    rw [Real.mul_self_sqrt (le_of_lt hpos)]
    exact div_self (ne_of_gt hpos)

/-- Witness for C6 at concrete inputs: the self-similarity of `[1, 0]` is 1
and the similarity with the zero vector `[0]` is 0. -/
theorem C6_cosine_similarity_witness :
    calculate_cosine_similarity [(1 : ℝ), 0] [(1 : ℝ), 0] = 1 ∧
    calculate_cosine_similarity [(0 : ℝ)] [(3 : ℝ)] = 0 := by
  constructor
  · exact (C6_cosine_similarity [(1 : ℝ), 0] [(1 : ℝ), 0] [(1 : ℝ), 0] rfl
      ⟨1, by simp, one_ne_zero⟩).2.2
  · refine (C6_cosine_similarity [(0 : ℝ)] [(3 : ℝ)] [(1 : ℝ)] rfl
      ⟨1, by simp, one_ne_zero⟩).1 (Or.inl ?_)
    simp [np_norm]

/-- C7: `calculate_l2_similarity` computes `1 / (1 + euclidean_distance)`,
which is strictly positive, at most 1, strictly decreasing in the Euclidean
distance, and equal to 1 on every vector paired with itself. -/
theorem C7_l2_similarity (a b c d v : List ℝ)
    (hlt : l2_distance a b < l2_distance c d) :
    calculate_l2_similarity a b = 1 / (1 + l2_distance a b) ∧
    0 < calculate_l2_similarity a b ∧
    calculate_l2_similarity a b ≤ 1 ∧
    calculate_l2_similarity c d < calculate_l2_similarity a b ∧
    calculate_l2_similarity v v = 1 := by
  have hab : (0 : ℝ) < 1 + l2_distance a b := by
    have := Real.sqrt_nonneg ((List.zipWith (fun x y => x - y) a b).map (fun x => x * x)).sum
    simp only [l2_distance, np_norm]
    linarith
  refine ⟨rfl, ?_, ?_, ?_, ?_⟩
  · exact div_pos one_pos hab
  · rw [calculate_l2_similarity, div_le_one hab]
    have : 0 ≤ l2_distance a b := Real.sqrt_nonneg _
    linarith
  · simp only [calculate_l2_similarity]
    exact one_div_lt_one_div_of_lt hab (by linarith)
  · simp [calculate_l2_similarity, l2_distance_self]

/-- Witness for C7 at concrete inputs: distance 0 beats distance 1, and the
self-similarity of `[2]` is 1. -/
theorem C7_l2_similarity_witness :
    calculate_l2_similarity [(0 : ℝ)] [(1 : ℝ)] <
      calculate_l2_similarity [(0 : ℝ)] [(0 : ℝ)] ∧
    calculate_l2_similarity [(2 : ℝ)] [(2 : ℝ)] = 1 := by
  have hlt : l2_distance [(0 : ℝ)] [(0 : ℝ)] < l2_distance [(0 : ℝ)] [(1 : ℝ)] := by
    have h0 : l2_distance [(0 : ℝ)] [(0 : ℝ)] = 0 := l2_distance_self _
    have h1 : l2_distance [(0 : ℝ)] [(1 : ℝ)] = 1 := by
      simp [l2_distance, np_norm]
    rw [h0, h1]
    exact one_pos
  have h := C7_l2_similarity [(0 : ℝ)] [(0 : ℝ)] [(0 : ℝ)] [(1 : ℝ)] [(2 : ℝ)] hlt
  exact ⟨h.2.2.2.1, h.2.2.2.2⟩

/-- C1 (counterexample): with an embedding backend whose query-embedding call
fails, `search_multiple_documents` — and the retrieval entry point
`search_relevant_chunks` — silently return the empty result list for a
non-empty candidate document set with chunks, instead of propagating the
error: the per-document `except` clause catches the query-embedding failure
raised inside `search_similar_chunks`. -/
theorem C1_counterexample :
    search_multiple_documents (fun _ => (Except.error "boom" : Except String Unit))
      (fun _ _ => (0 : ℚ)) "q".data
      [⟨1, true, "completed", [⟨1, "xy".data, some ()⟩]⟩] 3 5 = [] ∧
    search_relevant_chunks (fun _ => (Except.error "boom" : Except String Unit))
      (fun _ _ => (0 : ℚ)) "q".data
      [⟨1, true, "completed", [⟨1, "xy".data, some ()⟩]⟩] 5 = [] ∧
    ([⟨1, true, "completed", [⟨1, "xy".data, some ()⟩]⟩] : List (DocumentR Unit)) ≠ [] := by
  have hsmd : search_multiple_documents (fun _ => (Except.error "boom" : Except String Unit))
      (fun _ _ => (0 : ℚ)) "q".data
      [⟨1, true, "completed", [⟨1, "xy".data, some ()⟩]⟩] 3 5 = [] := by
    simp [search_multiple_documents, document_results, search_similar_chunks]
  refine ⟨hsmd, ?_, by decide⟩
  simpa [search_relevant_chunks, retrieval_filter] using hsmd

/-- C1 (amended): a query-embedding failure is propagated (wrapped) out of
the single-document search `search_similar_chunks`; but the multi-document
retrieval `search_multiple_documents` catches it per document and returns
the empty list, as does `search_relevant_chunks`. -/
theorem C1_amended {Emb : Type} (getEmb : List Char → Except String Emb)
    (sim : Emb → Emb → ℚ) (query : List Char) (e : String)
    (h : getEmb query = Except.error e) :
    (∀ (document_chunks : List (ChunkRow Emb)) (top_k : Nat),
      search_similar_chunks getEmb sim query document_chunks top_k =
        Except.error ("search failed: " ++ e)) ∧
    (∀ (documents : List (DocumentR Emb)) (top_k_per_doc total_top_k : Nat),
      search_multiple_documents getEmb sim query documents top_k_per_doc total_top_k = []) ∧
    (∀ (selected : List (DocumentR Emb)) (top_k : Nat),
      search_relevant_chunks getEmb sim query selected top_k = []) := by
  have h1 : ∀ (chunks : List (ChunkRow Emb)) (top_k : Nat),
      search_similar_chunks getEmb sim query chunks top_k =
        Except.error ("search failed: " ++ e) := by
    intro chunks top_k
    simp [search_similar_chunks, h]
  have hdoc : ∀ (kd : Nat) (d : DocumentR Emb),
      document_results getEmb sim query kd d = [] := by
    intro kd d
    by_cases hc : d.chunks.isEmpty
    · simp [document_results, hc]
    · simp [document_results, hc, h1]
  have h2 : ∀ (documents : List (DocumentR Emb)) (kd k : Nat),
      search_multiple_documents getEmb sim query documents kd k = [] := by
    intro documents kd k
    have hfold : ∀ (docs : List (DocumentR Emb)) (acc : List RetrievalResult),
        docs.foldl (fun acc document =>
          acc ++ document_results getEmb sim query kd document) acc = acc := by
      intro docs
      induction docs with
      | nil => intro acc; rfl
      | cons d rest ih =>
        intro acc
        simp [List.foldl, hdoc, ih]
    simp [search_multiple_documents, hfold]
  refine ⟨h1, h2, ?_⟩
  intro selected top_k
  simp only [search_relevant_chunks]
  split
  · rfl
  · exact h2 _ _ _

/-- Witness for C1 (amended) on a concrete failing backend: the
single-document search surfaces the wrapped error, the multi-document
search and the retrieval entry point return the empty list. -/
theorem C1_amended_witness :
    search_similar_chunks (fun _ => (Except.error "boom" : Except String Unit))
      (fun _ _ => (0 : ℚ)) "q".data [⟨1, "xy".data, some ()⟩] 5 =
      Except.error ("search failed: " ++ "boom") ∧
    search_multiple_documents (fun _ => (Except.error "boom" : Except String Unit))
      (fun _ _ => (0 : ℚ)) "q".data
      [⟨2, true, "completed", [⟨1, "xy".data, some ()⟩]⟩] 3 5 = [] ∧
    search_relevant_chunks (fun _ => (Except.error "boom" : Except String Unit))
      (fun _ _ => (0 : ℚ)) "q".data
      [⟨2, true, "completed", [⟨1, "xy".data, some ()⟩]⟩] 5 = [] := by
  have h := @C1_amended Unit (fun _ => Except.error "boom") (fun _ _ => (0 : ℚ))
    "q".data "boom" rfl
  exact ⟨h.1 _ _, h.2.1 _ _ _, h.2.2 _ _⟩

/-- C3 (counterexample): the input `"@@@"` is non-empty as raw text but its
preprocessed form is empty (every character is outside the allow-list);
chunking yields zero chunks, yet `process_document` reports the run as a
success with zero chunks and status `'completed'`, because the source only
checks the raw extracted text for emptiness. -/
theorem C3_counterexample :
    preprocess_text "@@@".data = [] ∧
    pyStrip "@@@".data ≠ [] ∧
    create_chunks charEnc 1000 200 "@@@".data = [] ∧
    (process_document charEnc 1000 200 (Except.ok "@@@".data) none
      ⟨false, "pending", 0, []⟩).2.success = true ∧
    (process_document charEnc 1000 200 (Except.ok "@@@".data) none
      ⟨false, "pending", 0, []⟩).1.processing_status = "completed" ∧
    (process_document charEnc 1000 200 (Except.ok "@@@".data) none
      ⟨false, "pending", 0, []⟩).1.total_chunks = 0 := by
  decide

/-- C3 (amended): an input whose preprocessed form is empty yields zero
chunks; the processing run is reported failed only when the raw extracted
text is already empty after stripping (text that becomes empty only through
preprocessing is reported as a successful run with zero chunks). -/
theorem C3_amended (enc : Encoding τ) (chunk_size chunk_overlap : Nat)
    (text : List Char) (insert_fault : Option Nat) (doc : DocState)
    (hpre : preprocess_text text = []) :
    create_chunks enc chunk_size chunk_overlap text = [] ∧
    (pyStrip text = [] →
      (process_document enc chunk_size chunk_overlap (Except.ok text)
        insert_fault doc).2.success = false ∧
      (process_document enc chunk_size chunk_overlap (Except.ok text)
        insert_fault doc).1.processing_status = "failed") := by
  constructor
  · simp [create_chunks, hpre, splitSents, splitSentsGo, create_chunks_step, pyStrip]
  · intro hraw
    simp [process_document, hraw]

/-- Witness for C3 (amended) at the whitespace-only input `" "`. -/
theorem C3_amended_witness :
    preprocess_text " ".data = [] ∧
    create_chunks charEnc 1000 200 " ".data = [] ∧
    (process_document charEnc 1000 200 (Except.ok " ".data) none
      ⟨false, "pending", 0, []⟩).2.success = false ∧
    (process_document charEnc 1000 200 (Except.ok " ".data) none
      ⟨false, "pending", 0, []⟩).1.processing_status = "failed" := by
  have h := C3_amended charEnc 1000 200 " ".data none ⟨false, "pending", 0, []⟩ (by decide)
  have h2 := h.2 (by decide)
  exact ⟨by decide, h.1, h2.1, h2.2⟩

/-- C9: the source deletes all previous chunks and then inserts the new ones
as separate autocommit statements with no surrounding transaction, so a
database failure at the second insert of a reprocess leaves the document in
status `'failed'` with a half-replaced chunk set: the two previously
committed chunks are gone and only one of the two new chunks is present.
This contradicts the intended atomic delete-then-recreate. -/
theorem C9_partial_replacement :
    (create_chunks charEnc 2 0 "aa. bb".data).length = 2 ∧
    (process_document charEnc 2 0 (Except.ok "aa. bb".data) (some 1)
      ⟨true, "completed", 2, [⟨"xx".data, 0, 2⟩, ⟨"yy".data, 1, 2⟩]⟩).1.processing_status
      = "failed" ∧
    (process_document charEnc 2 0 (Except.ok "aa. bb".data) (some 1)
      ⟨true, "completed", 2, [⟨"xx".data, 0, 2⟩, ⟨"yy".data, 1, 2⟩]⟩).1.stored_chunks
      = [⟨"aa".data, 0, 2⟩] ∧
    (process_document charEnc 2 0 (Except.ok "aa. bb".data) (some 1)
      ⟨true, "completed", 2, [⟨"xx".data, 0, 2⟩, ⟨"yy".data, 1, 2⟩]⟩).1.stored_chunks
      ≠ [⟨"xx".data, 0, 2⟩, ⟨"yy".data, 1, 2⟩] ∧
    (process_document charEnc 2 0 (Except.ok "aa. bb".data) (some 1)
      ⟨true, "completed", 2, [⟨"xx".data, 0, 2⟩, ⟨"yy".data, 1, 2⟩]⟩).1.stored_chunks
      ≠ create_chunks charEnc 2 0 "aa. bb".data := by
  decide

/-- C10: whenever `process_document` reports failure, only the
`processing_status` field is set (to `'failed'`); `is_processed` and
`total_chunks` keep their previous values, and the retrieval eligibility
filter of `search_relevant_chunks` reads only `is_processed`, so a document
from a prior successful run stays eligible for retrieval. -/
theorem C10_failure_frame {τ Emb : Type} (enc : Encoding τ)
    (chunk_size chunk_overlap : Nat) (extracted : Except String (List Char))
    (insert_fault : Option Nat) (doc : DocState)
    (h : (process_document enc chunk_size chunk_overlap extracted
      insert_fault doc).2.success = false) :
    (process_document enc chunk_size chunk_overlap extracted
      insert_fault doc).1.processing_status = "failed" ∧
    (process_document enc chunk_size chunk_overlap extracted
      insert_fault doc).1.is_processed = doc.is_processed ∧
    (process_document enc chunk_size chunk_overlap extracted
      insert_fault doc).1.total_chunks = doc.total_chunks ∧
    ∀ (d : DocumentR Emb) (s : String),
      retrieval_filter { d with processing_status := s } = retrieval_filter d := by
  cases extracted with
  | error e => simp [process_document, retrieval_filter]
  | ok text =>
    by_cases ht : pyStrip text = []
    · simp [process_document, ht, retrieval_filter]
    · cases insert_fault with
      | none => simp [process_document, ht] at h
      | some i =>
        by_cases hi : i < (create_chunks enc chunk_size chunk_overlap text).length
        · simp [process_document, ht, hi, retrieval_filter]
        · simp [process_document, ht, hi] at h

/-- Witness for C10 on a concrete failed run (extraction failure) over a
document that had completed a prior run: status becomes `'failed'` while
`is_processed` stays `true` and `total_chunks` stays 2, and the retrieval
filter result is unchanged by the status change. -/
theorem C10_failure_frame_witness :
    (process_document charEnc 1000 200 (Except.error "x") none
      ⟨true, "completed", 2, []⟩).2.success = false ∧
    (process_document charEnc 1000 200 (Except.error "x") none
      ⟨true, "completed", 2, []⟩).1.processing_status = "failed" ∧
    (process_document charEnc 1000 200 (Except.error "x") none
      ⟨true, "completed", 2, []⟩).1.is_processed = true ∧
    (process_document charEnc 1000 200 (Except.error "x") none
      ⟨true, "completed", 2, []⟩).1.total_chunks = 2 ∧
    retrieval_filter (⟨7, true, "failed", []⟩ : DocumentR Unit) =
      retrieval_filter (⟨7, true, "completed", []⟩ : DocumentR Unit) := by
  have h := @C10_failure_frame Char Unit charEnc 1000 200 (Except.error "x") none
    ⟨true, "completed", 2, []⟩ (by decide)
  exact ⟨by decide, h.1, h.2.1, h.2.2.1, h.2.2.2 ⟨7, true, "completed", []⟩ "failed"⟩

theorem foldl_append_eq {α β : Type} (f : α → List β) :
    ∀ (xs : List α) (init : List β),
      xs.foldl (fun acc x => acc ++ f x) init = init ++ (xs.map f).flatten := by
  intro xs
  induction xs with
  | nil => intro init; simp
  | cons x rest ih => intro init; simp [List.foldl, ih]

theorem search_similar_chunks_ok_length {Emb : Type}
    (getEmb : List Char → Except String Emb) (sim : Emb → Emb → ℚ)
    (query : List Char) (chunks : List (ChunkRow Emb)) (top_k : Nat)
    (rs : List ScoredChunk)
    (h : search_similar_chunks getEmb sim query chunks top_k = Except.ok rs) :
    rs.length ≤ top_k := by
  cases hq : getEmb query with
  | error e => simp [search_similar_chunks, hq] at h
  | ok qe =>
    simp only [search_similar_chunks, hq, Except.ok.injEq] at h
    rw [← h]
    exact List.length_take_le _ _

theorem search_similar_chunks_ok_sorted {Emb : Type}
    (getEmb : List Char → Except String Emb) (sim : Emb → Emb → ℚ)
    (query : List Char) (chunks : List (ChunkRow Emb)) (top_k : Nat)
    (rs : List ScoredChunk)
    (h : search_similar_chunks getEmb sim query chunks top_k = Except.ok rs) :
    rs.Pairwise (fun a b => b.similarity ≤ a.similarity) := by
  cases hq : getEmb query with
  | error e => simp [search_similar_chunks, hq] at h
  | ok qe =>
    simp only [search_similar_chunks, hq, Except.ok.injEq] at h
    have hsorted := @List.sorted_mergeSort ScoredChunk
      (fun a b => decide (b.similarity ≤ a.similarity))
      (fun a b c hab hbc => by
        simp only [decide_eq_true_eq] at hab hbc ⊢
        exact le_trans hbc hab)
      (fun a b => by
        simp only [Bool.or_eq_true, decide_eq_true_eq]
        exact le_total _ _)
      (chunks.foldl (fun acc chunk =>
        match lookupEmb (generate_chunk_embeddings getEmb chunks) chunk.id with
        | some e => acc ++ [⟨chunk.id, sim qe e, chunk.content⟩]
        | none => acc) [])
    rw [← h]
    exact ((hsorted.sublist (List.take_sublist _ _)).imp (fun hab => by
      simpa using hab))

theorem document_results_length_le {Emb : Type}
    (getEmb : List Char → Except String Emb) (sim : Emb → Emb → ℚ)
    (query : List Char) (top_k_per_doc : Nat) (d : DocumentR Emb) :
    (document_results getEmb sim query top_k_per_doc d).length ≤ top_k_per_doc := by
  unfold document_results
  split
  · simp
  · cases h : search_similar_chunks getEmb sim query d.chunks top_k_per_doc with
    | error e => simp
    | ok rs =>
      simpa using search_similar_chunks_ok_length getEmb sim query d.chunks _ rs h

theorem mem_document_results_document_id {Emb : Type}
    (getEmb : List Char → Except String Emb) (sim : Emb → Emb → ℚ)
    (query : List Char) (top_k_per_doc : Nat) (d : DocumentR Emb)
    (r : RetrievalResult)
    (h : r ∈ document_results getEmb sim query top_k_per_doc d) :
    r.document_id = d.id := by
  unfold document_results at h
  split at h
  · simp at h
  · cases hs : search_similar_chunks getEmb sim query d.chunks top_k_per_doc with
    | error e => rw [hs] at h; simp at h
    | ok rs =>
      rw [hs] at h
      simp only [List.mem_map] at h
      obtain ⟨r0, _, rfl⟩ := h
      rfl

theorem countP_doc_flatten_le {Emb : Type}
    (getEmb : List Char → Except String Emb) (sim : Emb → Emb → ℚ)
    (query : List Char) (top_k_per_doc : Nat) (i : Nat) :
    ∀ (docs : List (DocumentR Emb)), (docs.map DocumentR.id).Nodup →
      ((docs.map (document_results getEmb sim query top_k_per_doc)).flatten).countP
        (fun r => decide (r.document_id = i)) ≤ top_k_per_doc := by
  intro docs
  induction docs with
  | nil => intro h; simp
  | cons d rest ih =>
    intro hnodup
    simp only [List.map_cons, List.nodup_cons, List.mem_map] at hnodup
    obtain ⟨hnotmem, hrest⟩ := hnodup
    have hzero : ∀ (d' : DocumentR Emb), d'.id ≠ i →
        (document_results getEmb sim query top_k_per_doc d').countP
          (fun r => decide (r.document_id = i)) = 0 := by
      intro d' hne
      rw [List.countP_eq_zero]
      intro r hr
      have := mem_document_results_document_id getEmb sim query top_k_per_doc d' r hr
      simp [this, hne]
    simp only [List.map_cons, List.flatten_cons, List.countP_append]
    by_cases hd : d.id = i
    · have hrest0 : ((rest.map (document_results getEmb sim query top_k_per_doc)).flatten).countP
          (fun r => decide (r.document_id = i)) = 0 := by
        rw [List.countP_eq_zero]
        intro r hr
        rw [List.mem_flatten] at hr
        obtain ⟨l', hl', hrl'⟩ := hr
        rw [List.mem_map] at hl'
        obtain ⟨d', hd', rfl⟩ := hl'
        have hne : d'.id ≠ i := by
          intro hcontra
          exact hnotmem ⟨d', hd', hcontra.trans hd.symm⟩
        have := mem_document_results_document_id getEmb sim query top_k_per_doc d' r hrl'
        simp [this, hne]
      calc (document_results getEmb sim query top_k_per_doc d).countP
            (fun r => decide (r.document_id = i)) +
          ((rest.map (document_results getEmb sim query top_k_per_doc)).flatten).countP
            (fun r => decide (r.document_id = i))
          = (document_results getEmb sim query top_k_per_doc d).countP
            (fun r => decide (r.document_id = i)) := by simp [hrest0]
        _ ≤ (document_results getEmb sim query top_k_per_doc d).length :=
            List.countP_le_length _
        _ ≤ top_k_per_doc := document_results_length_le getEmb sim query top_k_per_doc d
    · rw [hzero d hd]
      simpa using ih hrest

/-- C8: `search_multiple_documents` returns at most `total_top_k` results,
sorted in descending order of similarity, with at most `top_k_per_doc`
results from any single document (document ids are primary keys, hence
pairwise distinct). -/
theorem C8_retrieval_bounds {Emb : Type}
    (getEmb : List Char → Except String Emb) (sim : Emb → Emb → ℚ)
    (query : List Char) (documents : List (DocumentR Emb))
    (top_k_per_doc total_top_k : Nat)
    (hids : (documents.map DocumentR.id).Nodup) :
    (search_multiple_documents getEmb sim query documents
      top_k_per_doc total_top_k).length ≤ total_top_k ∧
    (search_multiple_documents getEmb sim query documents
      top_k_per_doc total_top_k).Pairwise
      (fun a b => b.similarity ≤ a.similarity) ∧
    ∀ i, (search_multiple_documents getEmb sim query documents
      top_k_per_doc total_top_k).countP
        (fun r => decide (r.document_id = i)) ≤ top_k_per_doc := by
  have hall : documents.foldl (fun acc document =>
        acc ++ document_results getEmb sim query top_k_per_doc document) [] =
      (documents.map (document_results getEmb sim query top_k_per_doc)).flatten := by
    simpa using foldl_append_eq (document_results getEmb sim query top_k_per_doc) documents []
  refine ⟨?_, ?_, ?_⟩
  · exact List.length_take_le _ _
  · have hsorted := @List.sorted_mergeSort RetrievalResult
      (fun a b => decide (b.similarity ≤ a.similarity))
      (fun a b c hab hbc => by
        simp only [decide_eq_true_eq] at hab hbc ⊢
        exact le_trans hbc hab)
      (fun a b => by
        simp only [Bool.or_eq_true, decide_eq_true_eq]
        exact le_total _ _)
      (documents.foldl (fun acc document =>
        acc ++ document_results getEmb sim query top_k_per_doc document) [])
    exact (hsorted.sublist (List.take_sublist _ _)).imp (fun hab => by simpa using hab)
  · intro i
    calc (search_multiple_documents getEmb sim query documents
          top_k_per_doc total_top_k).countP (fun r => decide (r.document_id = i))
        ≤ ((documents.foldl (fun acc document =>
            acc ++ document_results getEmb sim query top_k_per_doc document)
            []).mergeSort (fun a b => decide (b.similarity ≤ a.similarity))).countP
            (fun r => decide (r.document_id = i)) :=
          (List.take_sublist _ _).countP_le _
      _ = (documents.foldl (fun acc document =>
            acc ++ document_results getEmb sim query top_k_per_doc document)
            []).countP (fun r => decide (r.document_id = i)) :=
          (List.mergeSort_perm _ _).countP_eq _
      _ ≤ top_k_per_doc := by
          rw [hall]
          exact countP_doc_flatten_le getEmb sim query top_k_per_doc i documents hids

unseal List.merge List.mergeSort in
/-- Witness for C8 on the spec's concrete scenario: two processed documents
with three embedded chunks each, `top_k_per_doc = 2`, `total_top_k = 3`; the
result is exactly the three highest-scoring chunks `[1, 4, 2]`, sorted by
score, with at most two from each document. -/
theorem C8_retrieval_bounds_witness :
    ([⟨1, true, "completed", [⟨1, "a".data, some (10 : ℚ)⟩, ⟨2, "b".data, some 8⟩,
        ⟨3, "c".data, some 6⟩]⟩,
      ⟨2, true, "completed", [⟨4, "d".data, some 9⟩, ⟨5, "e".data, some 7⟩,
        ⟨6, "f".data, some 5⟩]⟩].map DocumentR.id).Nodup ∧
    (search_multiple_documents (fun _ => (Except.ok (0 : ℚ))) (fun _ e => e) "q".data
      [⟨1, true, "completed", [⟨1, "a".data, some 10⟩, ⟨2, "b".data, some 8⟩,
        ⟨3, "c".data, some 6⟩]⟩,
       ⟨2, true, "completed", [⟨4, "d".data, some 9⟩, ⟨5, "e".data, some 7⟩,
        ⟨6, "f".data, some 5⟩]⟩] 2 3).map RetrievalResult.chunk_id = [1, 4, 2] ∧
    (search_multiple_documents (fun _ => (Except.ok (0 : ℚ))) (fun _ e => e) "q".data
      [⟨1, true, "completed", [⟨1, "a".data, some 10⟩, ⟨2, "b".data, some 8⟩,
        ⟨3, "c".data, some 6⟩]⟩,
       ⟨2, true, "completed", [⟨4, "d".data, some 9⟩, ⟨5, "e".data, some 7⟩,
        ⟨6, "f".data, some 5⟩]⟩] 2 3).length ≤ 3 ∧
    (search_multiple_documents (fun _ => (Except.ok (0 : ℚ))) (fun _ e => e) "q".data
      [⟨1, true, "completed", [⟨1, "a".data, some 10⟩, ⟨2, "b".data, some 8⟩,
        ⟨3, "c".data, some 6⟩]⟩,
       ⟨2, true, "completed", [⟨4, "d".data, some 9⟩, ⟨5, "e".data, some 7⟩,
        ⟨6, "f".data, some 5⟩]⟩] 2 3).Pairwise
      (fun a b => b.similarity ≤ a.similarity) ∧
    (∀ i, (search_multiple_documents (fun _ => (Except.ok (0 : ℚ))) (fun _ e => e) "q".data
      [⟨1, true, "completed", [⟨1, "a".data, some 10⟩, ⟨2, "b".data, some 8⟩,
        ⟨3, "c".data, some 6⟩]⟩,
       ⟨2, true, "completed", [⟨4, "d".data, some 9⟩, ⟨5, "e".data, some 7⟩,
        ⟨6, "f".data, some 5⟩]⟩] 2 3).countP
        (fun r => decide (r.document_id = i)) ≤ 2) := by
  have h := C8_retrieval_bounds (fun _ => (Except.ok (0 : ℚ))) (fun _ e => e) "q".data
    [⟨1, true, "completed", [⟨1, "a".data, some 10⟩, ⟨2, "b".data, some 8⟩,
      ⟨3, "c".data, some 6⟩]⟩,
     ⟨2, true, "completed", [⟨4, "d".data, some 9⟩, ⟨5, "e".data, some 7⟩,
      ⟨6, "f".data, some 5⟩]⟩] 2 3 (by decide)
  exact ⟨by decide, by decide, h.1, h.2.1, h.2.2⟩

theorem head_dropWhile_not {α : Type} (p : α → Bool) (l : List α)
    (h : l.dropWhile p ≠ []) :
    ∃ a, (l.dropWhile p).head? = some a ∧ p a = false := by
  induction l with
  | nil => simp at h
  | cons c rest ih =>
    by_cases hp : p c
    · rw [List.dropWhile_cons, if_pos hp] at h ⊢
      exact ih h
    · refine ⟨c, ?_, by simpa using hp⟩
      rw [List.dropWhile_cons, if_neg (by simpa using hp)]
      rfl

theorem pyStrip_ne_nil (l : List Char) (c : Char) (hc : c ∈ l)
    (hw : pyIsSpace c = false) : pyStrip l ≠ [] := by
  intro h
  unfold pyStrip at h
  rw [List.reverse_eq_nil_iff, List.dropWhile_eq_nil_iff] at h
  have hc2 : c ∈ l.dropWhile pyIsSpace := by
    have := List.takeWhile_append_dropWhile pyIsSpace l
    rw [← this] at hc
    rcases List.mem_append.mp hc with htake | hdrop
    · exact absurd (List.mem_takeWhile_imp htake) (by simp [hw])
    · exact hdrop
  exact absurd (h c (List.mem_reverse.mpr hc2)) (by simp [hw])

theorem pyStrip_getLast_nonWs (l : List Char) (h : pyStrip l ≠ []) :
    ∃ c, (pyStrip l).getLast? = some c ∧ pyIsSpace c = false := by
  unfold pyStrip at h ⊢
  rw [List.getLast?_reverse]
  apply head_dropWhile_not
  intro h0
  exact h (by rw [h0]; rfl)

theorem getLast?_append_right (l l2 : List Char) (h : l2 ≠ []) :
    (l ++ l2).getLast? = l2.getLast? := by
  rw [List.getLast?_append]
  cases h2 : l2.getLast? with
  | some c => rfl
  | none => exact absurd (List.getLast?_eq_none_iff.mp h2) h

theorem splitSentsGo_exists_nonWs (l : List Char) :
    ∀ (skipWs : Bool) (acc : List Char),
      (∃ c, l.getLast? = some c ∧ pyIsSpace c = false) →
      ∃ s ∈ splitSentsGo skipWs l acc, ∃ c ∈ s, pyIsSpace c = false := by
  induction l with
  | nil =>
    intro _ _ h
    obtain ⟨c, hc, _⟩ := h
    simp at hc
  | cons a rest ih =>
    intro skipWs acc h
    cases rest with
    | nil =>
      obtain ⟨c, hc, hw⟩ := h
      have hac : a = c := by simpa using hc
      have hw' : pyIsSpace a = false := by rw [hac]; exact hw
      refine ⟨(a :: acc).reverse, ?_, a, by simp, hw'⟩
      have h1 : (skipWs && pyIsSpace a) = false := by simp [hw']
      have h2 : (isSentPunct a && headIsSpace ([] : List Char)) = false := by
        simp [headIsSpace]
      simp [splitSentsGo, h1, h2]
    | cons b rest2 =>
      have h' : ∃ c, (b :: rest2).getLast? = some c ∧ pyIsSpace c = false := by
        rw [List.getLast?_cons_cons] at h
        exact h
      by_cases h1 : (skipWs && pyIsSpace a) = true
      · obtain ⟨s, hs, hc⟩ := ih true acc h'
        exact ⟨s, by simp only [splitSentsGo, h1, if_true]; exact hs, hc⟩
      · by_cases h2 : (isSentPunct a && headIsSpace (b :: rest2)) = true
        · obtain ⟨s, hs, hc⟩ := ih true [] h'
          refine ⟨s, ?_, hc⟩
          simp only [splitSentsGo, h1, h2, if_true, if_false, Bool.false_eq_true]
          exact List.mem_cons_of_mem _ hs
        · obtain ⟨s, hs, hc⟩ := ih false (a :: acc) h'
          refine ⟨s, ?_, hc⟩
          simp only [splitSentsGo, h1, h2, if_false, Bool.false_eq_true]
          exact hs
theorem create_chunks_step_shape_empty {τ : Type} (enc : Encoding τ) (cs ov : Nat)
    (st : ChunkState) (raw : List Char) (h : pyStrip raw = []) :
    create_chunks_step enc cs ov st raw = st := by
  simp [create_chunks_step, h]

theorem create_chunks_step_shape_close_pos {τ : Type} (enc : Encoding τ) (cs ov : Nat)
    (st : ChunkState) (raw : List Char) (hne : pyStrip raw ≠ [])
    (hcond : cs < st.current_tokens + (enc.encode (pyStrip raw)).length ∧
      st.current_chunk ≠ []) (hov : 0 < ov) :
    create_chunks_step enc cs ov st raw =
      ⟨st.chunks ++ [⟨pyStrip st.current_chunk, st.chunk_index, st.current_tokens⟩],
        get_overlap_text enc st.current_chunk ov ++ ' ' :: pyStrip raw,
        (enc.encode (get_overlap_text enc st.current_chunk ov ++ ' ' :: pyStrip raw)).length,
        st.chunk_index + 1⟩ := by
  simp only [create_chunks_step, if_neg hne, if_pos hcond, if_pos hov]

theorem create_chunks_step_shape_close_zero {τ : Type} (enc : Encoding τ) (cs ov : Nat)
    (st : ChunkState) (raw : List Char) (hne : pyStrip raw ≠ [])
    (hcond : cs < st.current_tokens + (enc.encode (pyStrip raw)).length ∧
      st.current_chunk ≠ []) (hov : ¬ 0 < ov) :
    create_chunks_step enc cs ov st raw =
      ⟨st.chunks ++ [⟨pyStrip st.current_chunk, st.chunk_index, st.current_tokens⟩],
        pyStrip raw, (enc.encode (pyStrip raw)).length, st.chunk_index + 1⟩ := by
  simp only [create_chunks_step, if_neg hne, if_pos hcond, if_neg hov]

theorem create_chunks_step_shape_append {τ : Type} (enc : Encoding τ) (cs ov : Nat)
    (st : ChunkState) (raw : List Char) (hne : pyStrip raw ≠ [])
    (hcond : ¬ (cs < st.current_tokens + (enc.encode (pyStrip raw)).length ∧
      st.current_chunk ≠ [])) (hcur : st.current_chunk ≠ []) :
    create_chunks_step enc cs ov st raw =
      ⟨st.chunks, st.current_chunk ++ '.' :: ' ' :: pyStrip raw,
        st.current_tokens + (enc.encode (pyStrip raw)).length, st.chunk_index⟩ := by
  simp only [create_chunks_step, if_neg hne, if_neg hcond, if_pos hcur]

theorem create_chunks_step_shape_start {τ : Type} (enc : Encoding τ) (cs ov : Nat)
    (st : ChunkState) (raw : List Char) (hne : pyStrip raw ≠ [])
    (hcur : st.current_chunk = []) :
    create_chunks_step enc cs ov st raw =
      ⟨st.chunks, pyStrip raw,
        st.current_tokens + (enc.encode (pyStrip raw)).length, st.chunk_index⟩ := by
  have hcond : ¬ (cs < st.current_tokens + (enc.encode (pyStrip raw)).length ∧
      st.current_chunk ≠ []) := fun h => h.2 hcur
  have hcur2 : ¬ st.current_chunk ≠ [] := fun h => h hcur
  simp only [create_chunks_step, if_neg hne, if_neg hcond, if_neg hcur2]

theorem create_chunks_step_inv {τ : Type} (enc : Encoding τ) (cs ov : Nat)
    (st : ChunkState) (raw : List Char)
    (h1 : st.chunks.map Chunk.chunk_index = List.range st.chunk_index)
    (h2 : st.chunks.length = st.chunk_index)
    (h3 : ∀ c ∈ st.chunks, c.content ≠ [])
    (h4 : st.current_chunk = [] ∨
      ∃ c, st.current_chunk.getLast? = some c ∧ pyIsSpace c = false) :
    (create_chunks_step enc cs ov st raw).chunks.map Chunk.chunk_index =
      List.range (create_chunks_step enc cs ov st raw).chunk_index ∧
    (create_chunks_step enc cs ov st raw).chunks.length =
      (create_chunks_step enc cs ov st raw).chunk_index ∧
    (∀ c ∈ (create_chunks_step enc cs ov st raw).chunks, c.content ≠ []) ∧
    ((create_chunks_step enc cs ov st raw).current_chunk = [] ∨
      ∃ c, (create_chunks_step enc cs ov st raw).current_chunk.getLast? = some c ∧
        pyIsSpace c = false) := by
  by_cases hemp : pyStrip raw = []
  · rw [create_chunks_step_shape_empty enc cs ov st raw hemp]
    exact ⟨h1, h2, h3, h4⟩
  · obtain ⟨c0, hc0, hw0⟩ := pyStrip_getLast_nonWs raw hemp
    have hclosed : st.current_chunk ≠ [] → pyStrip st.current_chunk ≠ [] := by
      intro hcur
      rcases h4 with h4 | ⟨c1, hc1, hw1⟩
      · exact absurd h4 hcur
      · exact pyStrip_ne_nil st.current_chunk c1 (List.mem_of_mem_getLast? hc1) hw1
    have hmapap : (st.chunks ++
        [(⟨pyStrip st.current_chunk, st.chunk_index, st.current_tokens⟩ : Chunk)]).map
          Chunk.chunk_index = List.range (st.chunk_index + 1) := by
      rw [List.map_append, h1, List.range_succ]
      rfl
    have hlenap : (st.chunks ++
        [(⟨pyStrip st.current_chunk, st.chunk_index, st.current_tokens⟩ : Chunk)]).length =
          st.chunk_index + 1 := by
      rw [List.length_append, h2]
      rfl
    have hcontap : st.current_chunk ≠ [] →
        ∀ c ∈ st.chunks ++
          [⟨pyStrip st.current_chunk, st.chunk_index, st.current_tokens⟩],
          c.content ≠ [] := by
      intro hcur c hc
      rcases List.mem_append.mp hc with hmem | hmem
      · exact h3 c hmem
      · have : c = ⟨pyStrip st.current_chunk, st.chunk_index, st.current_tokens⟩ := by
          simpa using hmem
        rw [this]
        exact hclosed hcur
    by_cases hcond : cs < st.current_tokens + (enc.encode (pyStrip raw)).length ∧
        st.current_chunk ≠ []
    · by_cases hov : 0 < ov
      · rw [create_chunks_step_shape_close_pos enc cs ov st raw hemp hcond hov]
        refine ⟨hmapap, hlenap, hcontap hcond.2, Or.inr ⟨c0, ?_, hw0⟩⟩
        show (get_overlap_text enc st.current_chunk ov ++ ' ' :: pyStrip raw).getLast? =
          some c0
        rw [List.append_cons, getLast?_append_right _ _ hemp]
        exact hc0
      · rw [create_chunks_step_shape_close_zero enc cs ov st raw hemp hcond hov]
        exact ⟨hmapap, hlenap, hcontap hcond.2, Or.inr ⟨c0, hc0, hw0⟩⟩
    · by_cases hcur : st.current_chunk = []
      · rw [create_chunks_step_shape_start enc cs ov st raw hemp hcur]
        exact ⟨h1, h2, h3, Or.inr ⟨c0, hc0, hw0⟩⟩
      · rw [create_chunks_step_shape_append enc cs ov st raw hemp hcond hcur]
        refine ⟨h1, h2, h3, Or.inr ⟨c0, ?_, hw0⟩⟩
        show (st.current_chunk ++ '.' :: ' ' :: pyStrip raw).getLast? = some c0
        have hsplit : st.current_chunk ++ '.' :: ' ' :: pyStrip raw =
            (st.current_chunk ++ ['.', ' ']) ++ pyStrip raw := by
          simp
        rw [hsplit, getLast?_append_right _ _ hemp]
        exact hc0

theorem create_chunks_step_good {τ : Type} (enc : Encoding τ) (cs ov : Nat)
    (st : ChunkState) (raw : List Char)
    (h : (st.chunks ≠ [] ∨ pyStrip st.current_chunk ≠ []) ∨ pyStrip raw ≠ []) :
    (create_chunks_step enc cs ov st raw).chunks ≠ [] ∨
      pyStrip (create_chunks_step enc cs ov st raw).current_chunk ≠ [] := by
  by_cases hemp : pyStrip raw = []
  · rw [create_chunks_step_shape_empty enc cs ov st raw hemp]
    rcases h with h | h
    · exact h
    · exact absurd hemp h
  · obtain ⟨c0, hc0, hw0⟩ := pyStrip_getLast_nonWs raw hemp
    have hc0mem : c0 ∈ pyStrip raw := List.mem_of_mem_getLast? hc0
    by_cases hcond : cs < st.current_tokens + (enc.encode (pyStrip raw)).length ∧
        st.current_chunk ≠ []
    · by_cases hov : 0 < ov
      · rw [create_chunks_step_shape_close_pos enc cs ov st raw hemp hcond hov]
        exact Or.inl (by simp)
      · rw [create_chunks_step_shape_close_zero enc cs ov st raw hemp hcond hov]
        exact Or.inl (by simp)
    · by_cases hcur : st.current_chunk = []
      · rw [create_chunks_step_shape_start enc cs ov st raw hemp hcur]
        exact Or.inr (pyStrip_ne_nil (pyStrip raw) c0 hc0mem hw0)
      · rw [create_chunks_step_shape_append enc cs ov st raw hemp hcond hcur]
        refine Or.inr (pyStrip_ne_nil _ c0 ?_ hw0)
        exact List.mem_append.mpr (Or.inr (by simp [hc0mem]))

theorem foldl_chunk_inv {τ : Type} (enc : Encoding τ) (cs ov : Nat) :
    ∀ (sents : List (List Char)) (st : ChunkState),
      (st.chunks.map Chunk.chunk_index = List.range st.chunk_index) →
      (st.chunks.length = st.chunk_index) →
      (∀ c ∈ st.chunks, c.content ≠ []) →
      (st.current_chunk = [] ∨
        ∃ c, st.current_chunk.getLast? = some c ∧ pyIsSpace c = false) →
      ((sents.foldl (create_chunks_step enc cs ov) st).chunks.map Chunk.chunk_index =
        List.range (sents.foldl (create_chunks_step enc cs ov) st).chunk_index ∧
      (sents.foldl (create_chunks_step enc cs ov) st).chunks.length =
        (sents.foldl (create_chunks_step enc cs ov) st).chunk_index ∧
      (∀ c ∈ (sents.foldl (create_chunks_step enc cs ov) st).chunks, c.content ≠ []) ∧
      ((sents.foldl (create_chunks_step enc cs ov) st).current_chunk = [] ∨
        ∃ c, (sents.foldl (create_chunks_step enc cs ov) st).current_chunk.getLast? =
          some c ∧ pyIsSpace c = false)) := by
  intro sents
  induction sents with
  | nil => intro st h1 h2 h3 h4; exact ⟨h1, h2, h3, h4⟩
  | cons s rest ih =>
    intro st h1 h2 h3 h4
    have hstep := create_chunks_step_inv enc cs ov st s h1 h2 h3 h4
    exact ih (create_chunks_step enc cs ov st s) hstep.1 hstep.2.1 hstep.2.2.1 hstep.2.2.2

theorem foldl_chunk_good {τ : Type} (enc : Encoding τ) (cs ov : Nat) :
    ∀ (sents : List (List Char)) (st : ChunkState),
      ((st.chunks ≠ [] ∨ pyStrip st.current_chunk ≠ []) ∨
        ∃ s ∈ sents, pyStrip s ≠ []) →
      ((sents.foldl (create_chunks_step enc cs ov) st).chunks ≠ [] ∨
        pyStrip (sents.foldl (create_chunks_step enc cs ov) st).current_chunk ≠ []) := by
  intro sents
  induction sents with
  | nil =>
    intro st h
    rcases h with h | h
    · exact h
    · simp at h
  | cons s rest ih =>
    intro st h
    apply ih (create_chunks_step enc cs ov st s)
    rcases h with hgood | ⟨s', hs', hgs'⟩
    · exact Or.inl (create_chunks_step_good enc cs ov st s (Or.inl hgood))
    · rcases List.mem_cons.mp hs' with rfl | hmem
      · exact Or.inl (create_chunks_step_good enc cs ov st s' (Or.inr hgs'))
      · exact Or.inr ⟨s', hmem, hgs'⟩

theorem create_chunks_final {τ : Type} (enc : Encoding τ) (cs ov : Nat)
    (text : List Char) :
    create_chunks enc cs ov text =
      (if pyStrip ((splitSents (preprocess_text text)).foldl
          (create_chunks_step enc cs ov) ⟨[], [], 0, 0⟩).current_chunk = [] then
        ((splitSents (preprocess_text text)).foldl
          (create_chunks_step enc cs ov) ⟨[], [], 0, 0⟩).chunks
      else ((splitSents (preprocess_text text)).foldl
          (create_chunks_step enc cs ov) ⟨[], [], 0, 0⟩).chunks ++
        [⟨pyStrip ((splitSents (preprocess_text text)).foldl
            (create_chunks_step enc cs ov) ⟨[], [], 0, 0⟩).current_chunk,
          ((splitSents (preprocess_text text)).foldl
            (create_chunks_step enc cs ov) ⟨[], [], 0, 0⟩).chunk_index,
          ((splitSents (preprocess_text text)).foldl
            (create_chunks_step enc cs ov) ⟨[], [], 0, 0⟩).current_tokens⟩]) := rfl

/-- C4: for a valid configuration and a text whose preprocessed form is
non-empty, `create_chunks` yields a non-empty chunk list whose
`chunk_index` values are exactly `0 .. n-1` in emission order, and every
chunk's content is non-empty. -/
theorem C4_chunk_sequence {τ : Type} (enc : Encoding τ)
    (chunk_size chunk_overlap : Nat) (text : List Char)
    (hcs : 0 < chunk_size) (hoc : chunk_overlap < chunk_size)
    (hne : preprocess_text text ≠ []) :
    create_chunks enc chunk_size chunk_overlap text ≠ [] ∧
    (create_chunks enc chunk_size chunk_overlap text).map Chunk.chunk_index =
      List.range (create_chunks enc chunk_size chunk_overlap text).length ∧
    ∀ c ∈ create_chunks enc chunk_size chunk_overlap text, c.content ≠ [] := by
  obtain ⟨cg, hcg, hwcg⟩ :=
    pyStrip_getLast_nonWs (subBlankLines ((collapseWs text).filter allowedChar)) hne
  obtain ⟨s0, hs0mem, c1, hc1mem, hw1⟩ :=
    splitSentsGo_exists_nonWs (preprocess_text text) false [] ⟨cg, hcg, hwcg⟩
  have hgood : ∃ s ∈ splitSents (preprocess_text text), pyStrip s ≠ [] :=
    ⟨s0, hs0mem, pyStrip_ne_nil s0 c1 hc1mem hw1⟩
  have hInv := foldl_chunk_inv enc chunk_size chunk_overlap
    (splitSents (preprocess_text text)) ⟨[], [], 0, 0⟩
    (by simp) (by simp) (by simp) (Or.inl rfl)
  have hGood := foldl_chunk_good enc chunk_size chunk_overlap
    (splitSents (preprocess_text text)) ⟨[], [], 0, 0⟩ (Or.inr hgood)
  rw [create_chunks_final enc chunk_size chunk_overlap text]
  revert hInv hGood
  generalize (splitSents (preprocess_text text)).foldl
    (create_chunks_step enc chunk_size chunk_overlap) ⟨[], [], 0, 0⟩ = stf
  intro hInv hGood
  obtain ⟨hmap, hlen, hcont, _⟩ := hInv
  by_cases hfin : pyStrip stf.current_chunk = []
  · rw [if_pos hfin]
    have hchunks : stf.chunks ≠ [] := by
      rcases hGood with h | h
      · exact h
      · exact absurd hfin h
    exact ⟨hchunks, by rw [hmap, hlen], hcont⟩
  · rw [if_neg hfin]
    refine ⟨by simp, ?_, ?_⟩
    · rw [List.map_append, hmap, List.length_append, hlen]
      simp [List.range_succ]
    · intro c hc
      rcases List.mem_append.mp hc with hmem | hmem
      · exact hcont c hmem
      · have : c = ⟨pyStrip stf.current_chunk, stf.chunk_index, stf.current_tokens⟩ := by
          simpa using hmem
        rw [this]
        exact hfin

/-- Witness for C4 on a concrete run: chunking `"ab. cd"` with
`chunk_size = 100`, `chunk_overlap = 20` yields one non-empty chunk with
index 0 and non-empty content. -/
theorem C4_chunk_sequence_witness :
    preprocess_text "ab. cd".data ≠ [] ∧
    create_chunks charEnc 100 20 "ab. cd".data ≠ [] ∧
    (create_chunks charEnc 100 20 "ab. cd".data).map Chunk.chunk_index =
      List.range (create_chunks charEnc 100 20 "ab. cd".data).length ∧
    ∀ c ∈ create_chunks charEnc 100 20 "ab. cd".data, c.content ≠ [] := by
  have h := C4_chunk_sequence charEnc 100 20 "ab. cd".data (by decide) (by decide)
    (by decide)
  exact ⟨by decide, h.1, h.2.1, h.2.2⟩

/-- C2 (counterexample): with the valid configuration `chunk_size = 10`,
`chunk_overlap = 9` and input `"aaaaaaaa. bbbbbbbb. cccccccc"`, every source
sentence has at most 10 tokens, yet the run emits a chunk recording 17
tokens: an overlap-seeded chunk can exceed `chunk_size` with no oversized
single sentence involved. -/
theorem C2_counterexample :
    ((0 : Nat) < 10 ∧ (9 : Nat) < 10) ∧
    (∀ s ∈ splitSents (preprocess_text "aaaaaaaa. bbbbbbbb. cccccccc".data),
      (charEnc.encode (pyStrip s)).length ≤ 10) ∧
    (∃ c ∈ create_chunks charEnc 10 9 "aaaaaaaa. bbbbbbbb. cccccccc".data,
      10 < c.tokens) := by
  decide

theorem create_chunks_step_tokens_le {τ : Type} (enc : Encoding τ) (cs : Nat)
    (st : ChunkState) (raw : List Char)
    (hs : (enc.encode (pyStrip raw)).length ≤ cs)
    (h1 : ∀ c ∈ st.chunks, c.tokens ≤ cs)
    (h2 : st.current_chunk = [] → st.current_tokens = 0)
    (h3 : st.current_tokens ≤ cs) :
    (∀ c ∈ (create_chunks_step enc cs 0 st raw).chunks, c.tokens ≤ cs) ∧
    ((create_chunks_step enc cs 0 st raw).current_chunk = [] →
      (create_chunks_step enc cs 0 st raw).current_tokens = 0) ∧
    (create_chunks_step enc cs 0 st raw).current_tokens ≤ cs := by
  by_cases hemp : pyStrip raw = []
  · rw [create_chunks_step_shape_empty enc cs 0 st raw hemp]
    exact ⟨h1, h2, h3⟩
  · by_cases hcond : cs < st.current_tokens + (enc.encode (pyStrip raw)).length ∧
        st.current_chunk ≠ []
    · rw [create_chunks_step_shape_close_zero enc cs 0 st raw hemp hcond (by simp)]
      refine ⟨?_, fun h => absurd h hemp, hs⟩
      intro c hc
      rcases List.mem_append.mp hc with hm | hm
      · exact h1 c hm
      · have hce : c = ⟨pyStrip st.current_chunk, st.chunk_index, st.current_tokens⟩ := by
          simpa using hm
        rw [hce]
        exact h3
    · by_cases hcur : st.current_chunk = []
      · rw [create_chunks_step_shape_start enc cs 0 st raw hemp hcur]
        refine ⟨h1, fun h => absurd h hemp, ?_⟩
        rw [h2 hcur]
        simpa using hs
      · rw [create_chunks_step_shape_append enc cs 0 st raw hemp hcond hcur]
        refine ⟨h1, fun h => absurd (by simpa using h) hemp, ?_⟩
        have hA : ¬ cs < st.current_tokens + (enc.encode (pyStrip raw)).length :=
          fun hlt => hcond ⟨hlt, hcur⟩
        show st.current_tokens + (enc.encode (pyStrip raw)).length ≤ cs
        omega

/-- C2 (amended): with `chunk_overlap = 0`, if every stripped source
sentence has at most `chunk_size` tokens, no emitted chunk's recorded token
count exceeds `chunk_size` — equivalently, only an oversized single
sentence can produce an oversized chunk.  (When `chunk_overlap > 0` the
bound also fails for overlap-seeded chunks, per the counterexample.) -/
theorem C2_amended {τ : Type} (enc : Encoding τ) (chunk_size : Nat)
    (text : List Char) (hcs : 0 < chunk_size)
    (hs : ∀ s ∈ splitSents (preprocess_text text),
      (enc.encode (pyStrip s)).length ≤ chunk_size) :
    ∀ c ∈ create_chunks enc chunk_size 0 text, c.tokens ≤ chunk_size := by
  have key : ∀ (sents : List (List Char)) (st : ChunkState),
      (∀ s ∈ sents, (enc.encode (pyStrip s)).length ≤ chunk_size) →
      (∀ c ∈ st.chunks, c.tokens ≤ chunk_size) →
      (st.current_chunk = [] → st.current_tokens = 0) →
      st.current_tokens ≤ chunk_size →
      (∀ c ∈ (sents.foldl (create_chunks_step enc chunk_size 0) st).chunks,
        c.tokens ≤ chunk_size) ∧
      (sents.foldl (create_chunks_step enc chunk_size 0) st).current_tokens ≤
        chunk_size := by
    intro sents
    induction sents with
    | nil =>
      intro st _ ha _ hc
      exact ⟨ha, hc⟩
    | cons s rest ih =>
      intro st hq h1 h2 h3
      have hst := create_chunks_step_tokens_le enc chunk_size st s
        (hq s (List.mem_cons_self s rest)) h1 h2 h3
      exact ih _ (fun x hx => hq x (List.mem_cons_of_mem _ hx)) hst.1 hst.2.1 hst.2.2
  have hk := key (splitSents (preprocess_text text)) ⟨[], [], 0, 0⟩ hs
    (by simp) (fun _ => rfl) (Nat.zero_le _)
  rw [create_chunks_final enc chunk_size 0 text]
  revert hk
  generalize (splitSents (preprocess_text text)).foldl
    (create_chunks_step enc chunk_size 0) ⟨[], [], 0, 0⟩ = stf
  intro hk
  by_cases hfin : pyStrip stf.current_chunk = []
  · rw [if_pos hfin]
    exact hk.1
  · rw [if_neg hfin]
    intro c hc
    rcases List.mem_append.mp hc with hm | hm
    · exact hk.1 c hm
    · have hce : c = ⟨pyStrip stf.current_chunk, stf.chunk_index, stf.current_tokens⟩ := by
        simpa using hm
      rw [hce]
      exact hk.2

/-- Witness for C2 (amended): chunking `"aa. bb"` with `chunk_size = 2`,
`chunk_overlap = 0`; all sentences have at most 2 tokens and both emitted
chunks record at most 2 tokens. -/
theorem C2_amended_witness :
    (∀ s ∈ splitSents (preprocess_text "aa. bb".data),
      (charEnc.encode (pyStrip s)).length ≤ 2) ∧
    (create_chunks charEnc 2 0 "aa. bb".data).length = 2 ∧
    ∀ c ∈ create_chunks charEnc 2 0 "aa. bb".data, c.tokens ≤ 2 := by
  exact ⟨by decide, by decide, C2_amended charEnc 2 "aa. bb".data (by decide) (by decide)⟩

/-- C5 (counterexample): in the run `create_chunks charEnc 10 9` on
`"q @ @ @ @ @ @ xy. z. dddddddd"` (preprocessed to `"q       xy. z.
dddddddd"`), the loop state after the first two sentences has buffer
`"       xy z"`; the third sentence closes chunk 1 with content `"xy z"`
(the stripped buffer) and seeds chunk 2 with `"     xy z"` — the trailing
9 tokens of the buffer — which is NOT a suffix of chunk 1's content
because the content dropped the buffer's leading whitespace. -/
theorem C5_counterexample :
    (create_chunks charEnc 10 9 "q @ @ @ @ @ @ xy. z. dddddddd".data).map Chunk.content =
      ["q       xy".data, "xy z".data, "xy z dddddddd".data] ∧
    ((splitSents (preprocess_text "q @ @ @ @ @ @ xy. z. dddddddd".data)).take 2).foldl
        (create_chunks_step charEnc 10 9) ⟨[], [], 0, 0⟩ =
      ⟨[⟨"q       xy".data, 0, 10⟩], "       xy z".data, 11, 1⟩ ∧
    (splitSents (preprocess_text "q @ @ @ @ @ @ xy. z. dddddddd".data)).drop 2 =
      ["dddddddd".data] ∧
    pyStrip "       xy z".data = "xy z".data ∧
    (10 < 11 + (charEnc.encode (pyStrip "dddddddd".data)).length ∧
      "       xy z".data ≠ []) ∧
    get_overlap_text charEnc "       xy z".data 9 = "     xy z".data ∧
    ¬ ("     xy z".data <:+ "xy z".data) ∧
    (create_chunks_step charEnc 10 9 ⟨[⟨"q       xy".data, 0, 10⟩], "       xy z".data, 11, 1⟩
        "dddddddd".data).current_chunk = "     xy z".data ++ ' ' :: "dddddddd".data := by
  decide

/-- C5 (amended): whenever the loop closes a chunk with `chunk_overlap >
0`, the next buffer is the overlap seed followed by a space and the current
sentence; the seed is a suffix of the just-closed raw buffer (whose
stripped form is the emitted chunk's content) and the seed's token count is
at most `chunk_overlap` (character-level tokenizer). -/
theorem C5_amended (chunk_size chunk_overlap : Nat) (st : ChunkState)
    (raw : List Char) (hov : 0 < chunk_overlap) (hne : pyStrip raw ≠ [])
    (hclose : chunk_size < st.current_tokens + (charEnc.encode (pyStrip raw)).length ∧
      st.current_chunk ≠ []) :
    (create_chunks_step charEnc chunk_size chunk_overlap st raw).chunks =
      st.chunks ++ [⟨pyStrip st.current_chunk, st.chunk_index, st.current_tokens⟩] ∧
    (create_chunks_step charEnc chunk_size chunk_overlap st raw).current_chunk =
      get_overlap_text charEnc st.current_chunk chunk_overlap ++ ' ' :: pyStrip raw ∧
    get_overlap_text charEnc st.current_chunk chunk_overlap <:+ st.current_chunk ∧
    (charEnc.encode (get_overlap_text charEnc st.current_chunk chunk_overlap)).length ≤
      chunk_overlap := by
  rw [create_chunks_step_shape_close_pos charEnc chunk_size chunk_overlap st raw hne
    hclose hov]
  refine ⟨rfl, rfl, ?_, ?_⟩
  · simp only [get_overlap_text]
    by_cases hlen : (charEnc.encode st.current_chunk).length ≤ chunk_overlap
    · rw [if_pos hlen]
    · rw [if_neg hlen]
      exact List.drop_suffix _ _
  · simp only [get_overlap_text]
    by_cases hlen : (charEnc.encode st.current_chunk).length ≤ chunk_overlap
    · rw [if_pos hlen]
      exact hlen
    · rw [if_neg hlen]
      show (st.current_chunk.drop (st.current_chunk.length - chunk_overlap)).length ≤
        chunk_overlap
      rw [List.length_drop]
      omega

/-- Witness for C5 (amended) at the concrete state reached in the
counterexample run after its first sentence: closing on sentence `"z"`
seeds the next buffer with the 9-token suffix of the old buffer. -/
theorem C5_amended_witness :
    (create_chunks_step charEnc 10 9 ⟨[], "q       xy".data, 10, 0⟩ "z".data).chunks =
      [] ++ [⟨pyStrip "q       xy".data, 0, 10⟩] ∧
    (create_chunks_step charEnc 10 9 ⟨[], "q       xy".data, 10, 0⟩ "z".data).current_chunk =
      get_overlap_text charEnc "q       xy".data 9 ++ ' ' :: pyStrip "z".data ∧
    get_overlap_text charEnc "q       xy".data 9 <:+ "q       xy".data ∧
    (charEnc.encode (get_overlap_text charEnc "q       xy".data 9)).length ≤ 9 := by
  have h := C5_amended 10 9 ⟨[], "q       xy".data, 10, 0⟩ "z".data (by decide)
    (by decide) ⟨by decide, by decide⟩
  exact ⟨h.1, h.2.1, h.2.2.1, h.2.2.2⟩
